import Mathlib

/-!
Shallow embedding of the viewscreen transfer/transcode engine.

String manipulation from the Go standard library (path/filepath, strings)
is modelled over the character list underlying a Lean String, so that every
definition evaluates by kernel reduction.  Go compares and measures strings
byte-wise; for valid UTF-8 the code-point order used here coincides with
byte order, and lengths are taken with String.utf8ByteSize where Go uses
len.
-/

namespace Viewscreen

/-- Split a character list on a separator character, the model of Go
strings.Split for a one-character separator: the result always has one more
part than the number of separators. -/
def splitChar (sep : Char) : List Char → List (List Char)
  | [] => [[]]
  | c :: cs =>
    let rest := splitChar sep cs
    if c = sep then [] :: rest
    else
      match rest with
      | [] => [[c]]
      | r :: rs => (c :: r) :: rs

/-- One element step of Go path/filepath.Clean: empty and dot elements are
dropped, dotdot pops a directory (kept literally when the path is relative
and no directory is left), anything else is pushed. -/
def cleanStep (rooted : Bool) (stack : List (List Char)) (e : List Char) : List (List Char) :=
  if e = [] ∨ e = ['.'] then stack
  else if e = ['.', '.'] then
    match stack with
    | [] => if rooted then [] else [['.', '.']]
    | top :: rest => if top = ['.', '.'] then e :: stack else rest
  else e :: stack

/-- Join path elements with slashes. -/
def joinSlash : List (List Char) → List Char
  | [] => []
  | [x] => x
  | x :: xs => x ++ '/' :: joinSlash xs

/-- Model of Go path/filepath.Clean (Unix rules): shortest lexical
equivalent of the path. -/
def goClean (path : String) : String :=
  if path = "" then "."
  else
    let rooted : Bool := path.data.head? = some '/'
    let elems := (splitChar '/' path.data).foldl (cleanStep rooted) []
    let out := joinSlash elems.reverse
    if rooted then
      if out = [] then "/" else String.mk ('/' :: out)
    else
      if out = [] then "." else String.mk out

/-- Model of Go path/filepath.Join on two elements: empty elements are
skipped and the concatenation is Cleaned. -/
def goJoin2 (a b : String) : String :=
  if a = "" then
    if b = "" then "" else goClean b
  else goClean (a ++ "/" ++ b)

/-- Model of Go path/filepath.Base: the last element of the path after
trailing slashes are removed. -/
def goBase (path : String) : String :=
  if path = "" then "."
  else
    let p := (path.data.reverse.dropWhile (fun c => c = '/')).reverse
    if p = [] then "/"
    else String.mk (p.reverse.takeWhile (fun c => ¬ c = '/')).reverse

/-- Model of Go path/filepath.Ext: the suffix of the final element starting
at its last dot, empty when the final element has no dot. -/
def goExt (path : String) : String :=
  let comp := path.data.reverse.takeWhile (fun c => ¬ c = '/')
  let afterDotRev := comp.takeWhile (fun c => ¬ c = '.')
  if afterDotRev.length = comp.length then ""
  else String.mk ('.' :: afterDotRev.reverse)

/-- Model of Go path/filepath.Dir: the path with its final element removed,
Cleaned. -/
def goDir (path : String) : String :=
  let comp := path.data.reverse.takeWhile (fun c => ¬ c = '/')
  goClean (String.mk (path.data.reverse.drop comp.length).reverse)

/-- Model of Go strings.TrimSuffix. -/
def trimSuffix (s suffix : String) : String :=
  if suffix.data.isSuffixOf s.data then
    String.mk (s.data.take (s.data.length - suffix.data.length))
  else s

/-- Model of Go strings.Contains for a non-empty substring. -/
def containsSub (sub : List Char) : List Char → Bool
  | [] => sub.isEmpty
  | c :: cs => sub.isPrefixOf (c :: cs) || containsSub sub cs

/-- Model of Go strings.ToLower, character by character (the engine only
compares ASCII extensions, where this matches Go). -/
def toLowerStr (s : String) : String :=
  String.mk (s.data.map Char.toLower)

/-- Model of Go strings.TrimPrefix for the one-character prefix dot. -/
def trimPrefixDot (s : String) : String :=
  match s.data with
  | '.' :: rest => String.mk rest
  | _ => s

/-- Does the string start with a dot (Go strings.HasPrefix against a dot)? -/
def startsWithDot (s : String) : Bool :=
  match s.data with
  | '.' :: _ => true
  | _ => false

/-- Model of Go strings.HasSuffix. -/
def strEndsWith (s suffix : String) : Bool :=
  suffix.data.isSuffixOf s.data

/-- Membership of a path in a file system modelled as a list of existing
paths. -/
def fsMem (fs : List String) (p : String) : Bool :=
  fs.any (fun q => decide (q = p))

/-- A transfer record of the downloader registry
(internal/downloader second variant, type Transfer): timestamps are
abstracted to whether they are set, the cancel handle and torrent handle to
whether they are present. -/
structure Transfer where
  id : String
  url : String
  started : Bool
  completed : Bool
  hasCancel : Bool
  downloadDir : String
  uploading : Bool
  seedRatio : Rat
  hasTorrent : Bool
deriving DecidableEq

/-- Transfer.IsStarted composed with IsCompleted: started but not completed. -/
def Transfer.IsActive (t : Transfer) : Bool :=
  t.started && !t.completed

/-- Transfer.IsCompleted. -/
def Transfer.IsCompleted (t : Transfer) : Bool :=
  t.completed

/-- Transfer.downloadingFile: the downloading sentinel path. -/
def Transfer.downloadingFile (t : Transfer) : String :=
  t.downloadDir ++ ".downloading"

/-- Transfer.uploadingFile: the uploading sentinel path. -/
def Transfer.uploadingFile (t : Transfer) : String :=
  t.downloadDir ++ ".uploading"

/-- The file-system operations the sentinel markers and Remove use
(os.WriteFile, os.Stat, os.Remove, os.RemoveAll), abstracted so that
theorems can quantify over every behaviour of the real file system. -/
structure FileOps where
  write : List String → String → Except Unit (List String)
  stat : List String → String → Bool
  rm : List String → String → Except Unit (List String)
  rmAll : List String → String → Except Unit (List String)

/-- The list-backed instantiation of FileOps: a path exists iff it is
listed, writes insert, removes delete, RemoveAll deletes the path and its
whole subtree, and os.Stat of the empty path always fails. -/
def listOps : FileOps :=
  { write := fun fs p => .ok (if fsMem fs p then fs else p :: fs)
    stat := fun fs p => if p = "" then false else fsMem fs p
    rm := fun fs p =>
      if fsMem fs p then .ok (fs.filter (fun q => !(decide (q = p)))) else .error ()
    rmAll := fun fs p =>
      .ok (fs.filter (fun q => !(decide (q = p) || (p ++ "/").data.isPrefixOf q.data))) }

/-- Transfer.MarkDownloading: a no-op unless a download directory has been
chosen, otherwise creates the downloading sentinel. -/
def Transfer.MarkDownloading (ops : FileOps) (fs : List String) (t : Transfer) :
    Except Unit (List String) :=
  if t.downloadDir = "" then .ok fs
  else ops.write fs t.downloadingFile

/-- Transfer.UnmarkDownloading: a no-op unless a download directory has been
chosen; when the sentinel does not exist it succeeds without removing. -/
def Transfer.UnmarkDownloading (ops : FileOps) (fs : List String) (t : Transfer) :
    Except Unit (List String) :=
  if t.downloadDir = "" then .ok fs
  else if !(ops.stat fs t.downloadingFile) then .ok fs
  else ops.rm fs t.downloadingFile

/-- Transfer.MarkUploading. -/
def Transfer.MarkUploading (ops : FileOps) (fs : List String) (t : Transfer) :
    Except Unit (List String) :=
  if t.downloadDir = "" then .ok fs
  else ops.write fs t.uploadingFile

/-- Transfer.UnmarkUploading. -/
def Transfer.UnmarkUploading (ops : FileOps) (fs : List String) (t : Transfer) :
    Except Unit (List String) :=
  if t.downloadDir = "" then .ok fs
  else if !(ops.stat fs t.uploadingFile) then .ok fs
  else ops.rm fs t.uploadingFile

/-- Downloader.findByID: linear scan of the registry. -/
def findByID (ts : List Transfer) (id : String) : Option Transfer :=
  ts.find? (fun t => decide (id = t.id))

/-- Downloader.remove (lower case): drop every registry record with the
given id, keeping the rest in order. -/
def removeT (ts : List Transfer) (id : String) : List Transfer :=
  ts.filter (fun t => !(decide (t.id = id)))

/-- The downloader state touched by Remove: the registry and the file
system under the download root. -/
structure DState where
  transfers : List Transfer
  fs : List String
deriving DecidableEq

/-- Errors of Downloader.Remove. -/
inductive RemoveErr where
  | notFound
  | fsError
deriving DecidableEq

/-- The outcome of Downloader.Remove: the new registry and file system,
and whether the cancel handle was invoked and the torrent handle dropped. -/
structure RemoveOut where
  transfers : List Transfer
  fs : List String
  cancelInvoked : Bool
  torrentDropped : Bool
deriving DecidableEq

/-- Downloader.Remove: look up the transfer (NotFound when absent), invoke
its cancel handle if set, and when a torrent handle is held drop it and,
iff the transfer is not uploading and the download directory exists,
delete that directory recursively; then drop the record from the registry
and unmark both sentinels. -/
def Remove (ops : FileOps) (s : DState) (id : String) : Except RemoveErr RemoveOut :=
  match findByID s.transfers id with
  | none => .error .notFound
  | some t =>
    let step1 : Except RemoveErr (List String) :=
      if t.hasTorrent then
        if !t.uploading then
          if ops.stat s.fs t.downloadDir then
            match ops.rmAll s.fs t.downloadDir with
            | .ok fs1 => .ok fs1
            | .error _ => .error .fsError
          else .ok s.fs
        else .ok s.fs
      else .ok s.fs
    match step1 with
    | .error e => .error e
    | .ok fs1 =>
      let ts1 := removeT s.transfers id
      match t.UnmarkDownloading ops fs1 with
      | .error _ => .error .fsError
      | .ok fs2 =>
        match t.UnmarkUploading ops fs2 with
        | .error _ => .error .fsError
        | .ok fs3 =>
          .ok { transfers := ts1, fs := fs3,
                cancelInvoked := t.hasCancel, torrentDropped := t.hasTorrent }

/-- Downloader.Add: canonicalize the URL (url.Parse then String), return
the existing record when one holds that URL, otherwise append a fresh
pending record whose id is the digest of the canonical URL and whose seed
ratio is copied from the config.  The URL parser and the md5 hex digest
are abstract parameters. -/
def addTransfer (canon : String → Option String) (digest : String → String)
    (ratio : Rat) (ts : List Transfer) (raw : String) :
    Option (Transfer × List Transfer) :=
  match canon raw with
  | none => none
  | some c =>
    match ts.find? (fun t => decide (c = t.url)) with
    | some t => some (t, ts)
    | none =>
      let t : Transfer :=
        { id := digest c, url := c, started := false, completed := false,
          hasCancel := false, downloadDir := "", uploading := false,
          seedRatio := ratio, hasTorrent := false }
      some (t, ts ++ [t])

/-- The number of registry records with the given canonical URL. -/
def countURL (ts : List Transfer) (c : String) : Nat :=
  (ts.filter (fun t => decide (t.url = c))).length

/-- The manager's admission count: transfers that are active and not
uploading. -/
def activeCount (ts : List Transfer) : Nat :=
  (ts.filter (fun t => t.IsActive && !t.uploading)).length

/-- Mark the registry record with the given id started. -/
def startT (ts : List Transfer) (id : String) : List Transfer :=
  ts.map (fun t => if t.id = id then { t with started := true } else t)

/-- One iteration of the manager's per-tick loop over the snapshot of the
registry: active transfers are left alone, completed ones are purged, and
a pending one is started only while the running count is below the slot
limit.  The accumulator carries the current registry, the admission count
and the ids started so far. -/
def tickStep (slots : Nat) (acc : List Transfer × Nat × List String) (t : Transfer) :
    List Transfer × Nat × List String :=
  if t.IsActive then acc
  else if t.IsCompleted then (removeT acc.1 t.id, acc.2.1, acc.2.2)
  else if acc.2.1 < slots then (startT acc.1 t.id, acc.2.1 + 1, acc.2.2 ++ [t.id])
  else acc

/-- One tick of Downloader.manager: count the active non-uploading
transfers, then walk the registry snapshot in insertion order. -/
def managerTick (slots : Nat) (ts : List Transfer) : List Transfer × Nat × List String :=
  ts.foldl (tickStep slots) (ts, activeCount ts, [])

/-- Downloader.availableStorage: reserve 5 percent of the probed space and
admit only a strictly smaller size.  The Go expression
int64(float64(space) times 0.05) is modelled exactly as the truncated
quotient space times 5 over 100, which agrees with the float computation
throughout the exactly representable range. -/
def availableStorage (space size : Int) : Bool :=
  let space2 := space - (space * 5).tdiv 100
  if size ≥ space2 then false else true

/-- transferFriend's download-id validation: the basename of the URL path,
rejected unless its byte length lies in the inclusive range 3 to 200. -/
def friendDownloadID (path : String) : Except Unit String :=
  let downloadID := goBase path
  if downloadID.utf8ByteSize < 3 || 200 < downloadID.utf8ByteSize then .error ()
  else .ok downloadID

/-- Whether transferFriend accepts the download id derived from the path. -/
def friendIDAccepted (path : String) : Bool :=
  match friendDownloadID path with
  | .ok _ => true
  | .error _ => false

/-- Download.Path: join the download root with the id, clean, and treat a
result equal to the root itself as fatal (the source panics there);
none models the panic. -/
def downloadPath (downloadDir id : String) : Option String :=
  let path := goJoin2 downloadDir id
  let path := goClean path
  if path = downloadDir then none else some path

/-- Is p the root itself or a path strictly inside the root? -/
def insideRoot (root p : String) : Bool :=
  decide (p = root) || (root ++ "/").data.isPrefixOf p.data

/-- A size-carrying file system for the transcoder, an association list
from path to byte size. -/
def statSize (fs : List (String × Nat)) (p : String) : Option Nat :=
  (fs.find? (fun e => decide (e.1 = p))).map (fun e => e.2)

/-- Delete a path (os.Remove, error ignored by the callers modelled here). -/
def fsDel (fs : List (String × Nat)) (p : String) : List (String × Nat) :=
  fs.filter (fun e => !(decide (e.1 = p)))

/-- Create or overwrite a path with the given size. -/
def fsPut (fs : List (String × Nat)) (p : String) (n : Nat) : List (String × Nat) :=
  (p, n) :: fsDel fs p

/-- os.Rename: fails when the source is absent, otherwise moves the entry
over the destination. -/
def fsRename (fs : List (String × Nat)) (a b : String) : Option (List (String × Nat)) :=
  match statSize fs a with
  | none => none
  | some n => some (fsPut (fsDel fs a) b n)

/-- Transcoder.filenames: clean the source name and derive the hidden temp
name and the visible destination name in the same directory. -/
def filenames (srcname : String) : String × String × String :=
  let src := goClean srcname
  let dir := goDir src
  let ext := goExt src
  let base := goBase src
  let noext := trimSuffix base ext
  (src, dir ++ "/." ++ noext ++ ".mp4", dir ++ "/" ++ noext ++ ".mp4")

/-- The observable outcome of one transcode worker run: the final file
system and whether the visible destination path was ever created (set at
the os.Rename of temp to destination). -/
structure TranscodeOut where
  fs : List (String × Nat)
  dstCreated : Bool
deriving DecidableEq

/-- Transcoder.transcode: stat the source, find the encoder, run it into
the hidden temp file, rename temp to destination, then validate that the
destination size is at least a fifth of the source size, deleting the
destination when it is undersized; finally move the thumbnail and delete
the source.  The deferred cleanup removes the temp file at every exit.
The encoder invocation is abstracted by whether the binary is found,
whether it exits zero, and the size of the output it leaves at the temp
path (none when it writes nothing). -/
def transcode (fs0 : List (String × Nat)) (srcname : String)
    (ffmpegFound : Bool) (encOk : Bool) (encOut : Option Nat) : TranscodeOut :=
  let names := filenames srcname
  let src := names.1
  let tmpname := names.2.1
  let dstname := names.2.2
  match statSize fs0 src with
  | none => { fs := fs0, dstCreated := false }
  | some srcSize =>
    if !ffmpegFound then { fs := fs0, dstCreated := false }
    else
      let fs1 := match encOut with
        | some n => fsPut fs0 tmpname n
        | none => fs0
      if !encOk then { fs := fsDel fs1 tmpname, dstCreated := false }
      else
        match fsRename fs1 tmpname dstname with
        | none => { fs := fsDel fs1 tmpname, dstCreated := false }
        | some fs2 =>
          let minsize := srcSize / 5
          match statSize fs2 dstname with
          | none => { fs := fsDel fs2 tmpname, dstCreated := true }
          | some dstSize =>
            if dstSize < minsize then
              { fs := fsDel (fsDel fs2 dstname) tmpname, dstCreated := true }
            else
              let oldthumb := src ++ ".thumbnail.png"
              let newthumb := dstname ++ ".thumbnail.png"
              if (statSize fs2 oldthumb).isSome then
                match fsRename fs2 oldthumb newthumb with
                | none => { fs := fsDel fs2 tmpname, dstCreated := true }
                | some fs3 =>
                  { fs := fsDel (fsDel fs3 src) tmpname, dstCreated := true }
              else
                { fs := fsDel (fsDel fs2 src) tmpname, dstCreated := true }

/-- A directory entry as returned by ioutil.ReadDir: its name and whether
it is a directory. -/
structure DirEntry where
  name : String
  isDir : Bool
deriving DecidableEq

/-- The ordering the listing applies: sort.Slice with the comparator
less i j defined as name j greater than name i, which orders names
ascending. -/
def entLe (a b : DirEntry) : Prop :=
  a.name.data ≤ b.name.data

instance : DecidableRel entLe :=
  fun a b => (inferInstance : Decidable (a.name.data ≤ b.name.data))

instance : IsTotal DirEntry entLe :=
  ⟨fun a b => le_total a.name.data b.name.data⟩

instance : IsTrans DirEntry entLe :=
  ⟨fun _ _ _ => le_trans⟩

/-- ls: drop thumbnail files and hidden names, partition into directories
and plain files, and sort each by name with the comparator above
(modelled by insertion sort; ReadDir yields distinct names, so the order
is fully determined). -/
def ls (es : List DirEntry) : List DirEntry × List DirEntry :=
  let keep := es.filter
    (fun f => !(strEndsWith f.name "thumbnail.png") && !(startsWithDot f.name))
  (List.insertionSort entLe (keep.filter (fun f => f.isDir)),
   List.insertionSort entLe (keep.filter (fun f => !f.isDir)))

/-- The loop body of ListDownloads over the sorted directories: each
directory becomes a download unless its downloading sentinel exists; a
fatal Download.Path (modelled none) aborts the listing. -/
def listDownloadsAux (root : String) (fs : List String) :
    List DirEntry → Option (List String)
  | [] => some []
  | d :: ds =>
    match downloadPath root d.name with
    | none => none
    | some p =>
      match listDownloadsAux root fs ds with
      | none => none
      | some rest =>
        some (if fsMem fs (p ++ ".downloading") then rest else d.name :: rest)

/-- ListDownloads: list the download root and keep the surviving
directories that are not currently downloading. -/
def ListDownloads (root : String) (fs : List String) (es : List DirEntry) :
    Option (List String) :=
  listDownloadsAux root fs (ls es).1

/-- Is the list of names in descending order (each name at least the
next)? -/
def descendingByName : List String → Bool
  | a :: b :: r => decide (b.data ≤ a.data) && descendingByName (b :: r)
  | _ => true

/-- A library file; the field is the name reported by its FileInfo. -/
structure File where
  name : String
deriving DecidableEq

/-- File.Base. -/
def File.Base (f : File) : String :=
  goBase f.name

/-- File.Ext: the lower-cased extension without its leading dot. -/
def File.Ext (f : File) : String :=
  trimPrefixDot (toLowerStr (goExt f.name))

/-- File.Viewable: false for any file whose base name contains the word
sample, otherwise decided by the extension. -/
def File.Viewable (f : File) : Bool :=
  if containsSub ("sample".data) f.Base.data then false
  else
    match f.Ext with
    | "mp4" => true
    | "m4v" => true
    | "m4a" => true
    | "m4b" => true
    | "mp3" => true
    | _ => false

instance {ε α : Type _} [DecidableEq ε] [DecidableEq α] : DecidableEq (Except ε α) := fun a b =>
  match a, b with
  | .ok x, .ok y =>
    if h : x = y then .isTrue (congrArg _ h)
    else .isFalse (fun hh => h (Except.ok.inj hh))
  | .error x, .error y =>
    if h : x = y then .isTrue (congrArg _ h)
    else .isFalse (fun hh => h (Except.error.inj hh))
  | .ok _, .error _ => .isFalse (fun hh => Except.noConfusion hh)
  | .error _, .ok _ => .isFalse (fun hh => Except.noConfusion hh)

/-- The friend transfer used to refute the claim that Remove deletes the
download directory of every non-uploading transfer: it is registered, not
uploading, holds no torrent handle, and its partial download directory
exists on disk. -/
def friendT : Transfer :=
  { id := "t1", url := "u", started := true, completed := false,
    hasCancel := true, downloadDir := "/data/movieA", uploading := false,
    seedRatio := 0, hasTorrent := false }

/-- Downloader state holding the friend transfer and its partial download. -/
def friendState : DState :=
  { transfers := [friendT],
    fs := ["/data/movieA", "/data/movieA/a.mp4", "/data/movieA.downloading"] }

/-- A registered torrent transfer used as a witness for the amended Remove
behaviour. -/
def torrentT : Transfer :=
  { id := "t2", url := "u2", started := true, completed := false,
    hasCancel := true, downloadDir := "/data/movieB", uploading := false,
    seedRatio := 0, hasTorrent := true }

/-- Downloader state holding the torrent transfer and its partial download. -/
def torrentState : DState :=
  { transfers := [torrentT],
    fs := ["/data/movieB", "/data/movieB/a.mp4", "/data/movieB.downloading"] }

/-- A pending transfer: no worker has run, so no directory, cancel handle
or torrent handle. -/
def pendingT : Transfer :=
  { id := "p1", url := "up", started := false, completed := false,
    hasCancel := false, downloadDir := "", uploading := false,
    seedRatio := 0, hasTorrent := false }

/-- Downloader state holding the pending transfer next to an unrelated
file. -/
def pendingState : DState :=
  { transfers := [pendingT], fs := ["/data/other"] }

/-- An active non-uploading transfer occupying one admission slot. -/
def activeT : Transfer :=
  { id := "a1", url := "ua", started := true, completed := false,
    hasCancel := false, downloadDir := "", uploading := false,
    seedRatio := 0, hasTorrent := false }

/-- An active transfer in its seed phase (uploading). -/
def uploadingT : Transfer :=
  { id := "s1", url := "us", started := true, completed := false,
    hasCancel := false, downloadDir := "", uploading := true,
    seedRatio := 0, hasTorrent := true }

/-- Derived form of the torrent block of Remove over the list-backed file
operations: the download directory subtree is deleted only when a torrent
handle is held, the transfer is not uploading, and the directory exists. -/
def torrentScrub (t : Transfer) (fs : List String) : List String :=
  if t.hasTorrent then
    if !t.uploading then
      if listOps.stat fs t.downloadDir then
        fs.filter (fun q =>
          !(decide (q = t.downloadDir) || (t.downloadDir ++ "/").data.isPrefixOf q.data))
      else fs
    else fs
  else fs

/-- Derived form of the two sentinel unmark calls of Remove over the
list-backed file operations. -/
def sentinelScrub (t : Transfer) (fs : List String) : List String :=
  if t.downloadDir = "" then fs
  else
    (fs.filter (fun q => !(decide (q = t.downloadingFile)))).filter
      (fun q => !(decide (q = t.uploadingFile)))

/-! ## Helper lemmas -/

theorem string_append_data (a b : String) : (a ++ b).data = a.data ++ b.data := rfl

theorem string_append_ne_empty (a b : String) (hb : b.data ≠ []) : a ++ b ≠ "" := by
  intro h
  have hd : a.data ++ b.data = [] := by
    have := congrArg String.data h
    simpa [string_append_data] using this
  exact hb (List.append_eq_nil.mp hd).2

theorem self_ne_string_append (a b : String) (hb : b.data ≠ []) : a ≠ a ++ b := by
  intro h
  have hd : a.data = a.data ++ b.data := by
    have := congrArg String.data h
    simpa [string_append_data] using this
  have hlen : a.data.length = a.data.length + b.data.length := by
    simpa [List.length_append] using congrArg List.length hd
  have hb0 : b.data.length = 0 := by omega
  exact hb (List.length_eq_zero.mp hb0)

/-! ## C5: the disk-space gate -/

/-- C5: for probe value p and required size r (integers, p nonnegative),
availableStorage admits exactly when r is strictly below 95 percent of p;
in particular when r equals 95 percent of p admission is denied. -/
theorem c5_storage_gate (p r : Int) (hp : 0 ≤ p) :
    availableStorage p r = true ↔ 20 * r < 19 * p := by
  have h5 : (0 : Int) ≤ p * 5 := by positivity
  have key : (p * 5).tdiv 100 = (p * 5) / 100 := Int.tdiv_eq_ediv h5 (by norm_num)
  simp only [availableStorage, key]
  split
  · simp only [Bool.false_eq_true, false_iff]
    omega
  · simp only [true_iff]
    omega

/-- Witness for C5 at probe 100 and size 94 (admitted: 1880 is below 1900). -/
theorem c5_storage_gate_witness :
    (0 : Int) ≤ 100 ∧ (availableStorage 100 94 = true ↔ (20 : Int) * 94 < 19 * 100) :=
  ⟨by decide, c5_storage_gate 100 94 (by decide)⟩

/-! ## C7: the Download path check -/

/-- C7 counterexample: the id dotdot joined to root /data cleans to the
slash root, which escapes the download root, yet the operation is not
fatal: Download.Path returns it instead of panicking.  This refutes the
claim that every non-fatal computed path lies inside the download root. -/
theorem c7_path_counterexample :
    downloadPath "/data" ".." = some "/" ∧ insideRoot "/data" "/" = false := by decide

/-- C7 amended: Download.Path is fatal exactly when the cleaned join of the
root and the id equals the root itself; any other result, including one
escaping the root, is returned without a panic. -/
theorem c7_path_amended (root id : String) :
    (downloadPath root id = none ↔ goClean (goJoin2 root id) = root) ∧
    (∀ p, downloadPath root id = some p → p = goClean (goJoin2 root id) ∧ p ≠ root) := by
  unfold downloadPath
  by_cases h : goClean (goJoin2 root id) = root <;> simp [h]

/-- Witness for C7 at a well-formed id. -/
theorem c7_path_amended_witness :
    downloadPath "/data" "movieA" = some "/data/movieA" ∧
      ("/data/movieA" = goClean (goJoin2 "/data" "movieA") ∧ "/data/movieA" ≠ "/data") :=
  ⟨by decide, (c7_path_amended "/data" "movieA").2 "/data/movieA" (by decide)⟩

/-! ## C8: friend download id length bounds -/

set_option maxRecDepth 4000 in
/-- C8: the friend download id, the basename of the URL path, is accepted
exactly when its byte length is between 3 and 200 inclusive; ids of
lengths 2 and 201 are rejected and ids of lengths 3 and 200 accepted. -/
theorem c8_friend_id_bounds :
    (∀ path, friendIDAccepted path = true ↔
      3 ≤ (goBase path).utf8ByteSize ∧ (goBase path).utf8ByteSize ≤ 200) ∧
    friendIDAccepted "/watcher/v1/downloads/files/ab" = false ∧
    friendIDAccepted "/watcher/v1/downloads/files/abc" = true ∧
    friendIDAccepted ("/watcher/v1/downloads/files/" ++ String.mk (List.replicate 200 'a')) = true ∧
    friendIDAccepted ("/watcher/v1/downloads/files/" ++ String.mk (List.replicate 201 'a')) = false := by
  refine ⟨fun path => ?_, by decide, by decide, by decide, by decide⟩
  simp only [friendIDAccepted, friendDownloadID]
  by_cases h1 : (goBase path).utf8ByteSize < 3
  · simp [h1]
  · by_cases h2 : 200 < (goBase path).utf8ByteSize
    · simp [h1, h2]
    · simp [h1, h2]
      omega

/-! ## C9: viewable classification -/

/-- C9 counterexample: sample.mp4 and video.mp4 share the extension mp4,
which is in the viewable set, yet only video.mp4 is classified viewable:
the classification inspects the base name for the substring sample, so it
does not depend on the extension alone. -/
theorem c9_viewable_counterexample :
    File.Ext ⟨"sample.mp4"⟩ = "mp4" ∧ File.Ext ⟨"video.mp4"⟩ = "mp4" ∧
      File.Viewable ⟨"video.mp4"⟩ = true ∧ File.Viewable ⟨"sample.mp4"⟩ = false := by
  decide

/-- C9 amended: a file is viewable exactly when its case-insensitive
extension is one of mp4, m4v, m4a, m4b, mp3 and its base name does not
contain the substring sample. -/
theorem c9_viewable_amended (f : File) :
    File.Viewable f = true ↔
      (File.Ext f ∈ (["mp4", "m4v", "m4a", "m4b", "mp3"] : List String) ∧
        containsSub ("sample".data) (File.Base f).data = false) := by
  by_cases hc : containsSub ("sample".data) (File.Base f).data
  · simp [File.Viewable, hc]
  · simp only [File.Viewable, hc, Bool.false_eq_true, if_neg, not_false_iff]
    split <;> simp_all

/-! ## C4: transcode size validation and publication order -/

theorem statSize_fsPut_self (fs : List (String × Nat)) (p : String) (n : Nat) :
    statSize (fsPut fs p n) p = some n := by
  simp [statSize, fsPut, List.find?]

theorem find?_filter_of_imp {α : Type _} (l : List α) (f g : α → Bool)
    (h : ∀ a, g a = true → f a = true) :
    List.find? g (l.filter f) = List.find? g l := by
  induction l with
  | nil => rfl
  | cons a l ih =>
    by_cases hg : g a = true
    · rw [List.filter_cons_of_pos (h a hg), List.find?_cons_of_pos _ hg,
        List.find?_cons_of_pos _ hg]
    · by_cases hf : f a = true
      · rw [List.filter_cons_of_pos hf, List.find?_cons_of_neg _ hg,
          List.find?_cons_of_neg _ hg]
        exact ih
      · rw [List.filter_cons_of_neg hf, List.find?_cons_of_neg _ hg]
        exact ih

theorem find?_filter_none {α : Type _} (l : List α) (f g : α → Bool)
    (h : ∀ a, f a = true → ¬ g a = true) :
    List.find? g (l.filter f) = none := by
  induction l with
  | nil => rfl
  | cons a l ih =>
    by_cases hf : f a = true
    · rw [List.filter_cons_of_pos hf, List.find?_cons_of_neg _ (h a hf)]
      exact ih
    · rw [List.filter_cons_of_neg hf]
      exact ih

theorem statSize_fsDel_self (fs : List (String × Nat)) (p : String) :
    statSize (fsDel fs p) p = none := by
  unfold statSize fsDel
  rw [find?_filter_none]
  · rfl
  · intro a hf hg
    simp at hf hg
    exact hf hg

theorem statSize_fsDel_other (fs : List (String × Nat)) (p q : String) (h : q ≠ p) :
    statSize (fsDel fs p) q = statSize fs q := by
  unfold statSize fsDel
  rw [find?_filter_of_imp]
  intro a hg
  simp at hg ⊢
  rw [hg]
  exact h

theorem statSize_fsPut_other (fs : List (String × Nat)) (p q : String) (n : Nat)
    (h : q ≠ p) : statSize (fsPut fs p n) q = statSize fs q := by
  have hne : ¬ ((p, n).1 = q) := fun hh => h (hh.symm)
  unfold fsPut
  calc statSize ((p, n) :: fsDel fs p) q
      = statSize (fsDel fs p) q := by
        unfold statSize
        rw [List.find?_cons_of_neg]
        simpa using hne
    _ = statSize fs q := statSize_fsDel_other fs p q h

/-- C4 counterexample: a 100-byte source transcoded into a 10-byte output
is undersized (10 is below 100 over 5), yet the worker run reports the
visible destination as having been created: the code renames the temp file
to the destination before validating the size, and only then deletes the
undersized destination.  This refutes the claim that the validation
happens on the temp file and that the destination is never created. -/
theorem c4_transcode_counterexample :
    (10 : Nat) < 100 / 5 ∧
      transcode [("/d/movie.avi", 100)] "/d/movie.avi" true true (some 10) =
        { fs := [("/d/movie.avi", 100)], dstCreated := true } := by decide

/-- C4 amended: for an encoder run that succeeds but leaves an undersized
output (below a fifth of the source size), the worker first renames the
temp file to the visible destination and performs the size check on the
destination; the undersized file is then deleted under its visible name,
so the final state has no destination file and the source intact, but the
destination path was created during the run. -/
theorem c4_transcode_amended (fs0 : List (String × Nat)) (srcname : String) (n sz : Nat)
    (hsrc : statSize fs0 (filenames srcname).1 = some sz)
    (hunder : n < sz / 5)
    (h1 : (filenames srcname).1 ≠ (filenames srcname).2.1)
    (h2 : (filenames srcname).1 ≠ (filenames srcname).2.2)
    (h3 : (filenames srcname).2.2 ≠ (filenames srcname).2.1) :
    (transcode fs0 srcname true true (some n)).dstCreated = true ∧
      statSize (transcode fs0 srcname true true (some n)).fs (filenames srcname).2.2 = none ∧
      statSize (transcode fs0 srcname true true (some n)).fs (filenames srcname).1 = some sz := by
  have hren : fsRename (fsPut fs0 (filenames srcname).2.1 n) (filenames srcname).2.1
      (filenames srcname).2.2 =
      some (fsPut (fsDel (fsPut fs0 (filenames srcname).2.1 n) (filenames srcname).2.1)
        (filenames srcname).2.2 n) := by
    simp [fsRename, statSize_fsPut_self]
  simp only [transcode, hsrc, hren, statSize_fsPut_self, Bool.not_true, Bool.false_eq_true,
    if_false, hunder, if_true, reduceIte]
  refine ⟨trivial, ?_, ?_⟩
  · rw [statSize_fsDel_other _ _ _ h3]
    exact statSize_fsDel_self _ _
  · rw [statSize_fsDel_other _ _ _ h1, statSize_fsDel_other _ _ _ h2,
      statSize_fsPut_other _ _ _ _ h2, statSize_fsDel_other _ _ _ h1,
      statSize_fsPut_other _ _ _ _ h1]
    exact hsrc

/-- Witness for C4 at the 100-byte source and 10-byte output. -/
theorem c4_transcode_amended_witness :
    statSize [("/d/movie.avi", 100)] (filenames "/d/movie.avi").1 = some 100 ∧
    (10 : Nat) < 100 / 5 ∧
    (filenames "/d/movie.avi").1 ≠ (filenames "/d/movie.avi").2.1 ∧
    (filenames "/d/movie.avi").1 ≠ (filenames "/d/movie.avi").2.2 ∧
    (filenames "/d/movie.avi").2.2 ≠ (filenames "/d/movie.avi").2.1 ∧
    ((transcode [("/d/movie.avi", 100)] "/d/movie.avi" true true (some 10)).dstCreated = true ∧
      statSize (transcode [("/d/movie.avi", 100)] "/d/movie.avi" true true (some 10)).fs
        (filenames "/d/movie.avi").2.2 = none ∧
      statSize (transcode [("/d/movie.avi", 100)] "/d/movie.avi" true true (some 10)).fs
        (filenames "/d/movie.avi").1 = some 100) :=
  ⟨by decide, by decide, by decide, by decide, by decide,
    c4_transcode_amended [("/d/movie.avi", 100)] "/d/movie.avi" 10 100
      (by decide) (by decide) (by decide) (by decide) (by decide)⟩

/-! ## C10: sentinel operations on a transfer without a directory -/

/-- C10: when no download directory has been chosen, all four sentinel
operations succeed without touching the file system, for every possible
behaviour of the underlying file operations; consequently removing a
registered still-pending transfer (no torrent handle, empty directory)
succeeds and leaves the file system untouched. -/
theorem c10_empty_dir_noop (ops : FileOps) (fs : List String) (t : Transfer)
    (s : DState) (id : String) (hdir : t.downloadDir = "") :
    t.MarkDownloading ops fs = .ok fs ∧ t.UnmarkDownloading ops fs = .ok fs ∧
    t.MarkUploading ops fs = .ok fs ∧ t.UnmarkUploading ops fs = .ok fs ∧
    (findByID s.transfers id = some t → t.hasTorrent = false →
      Remove ops s id =
        .ok { transfers := removeT s.transfers id, fs := s.fs,
              cancelInvoked := t.hasCancel, torrentDropped := false }) := by
  refine ⟨by simp [Transfer.MarkDownloading, hdir], by simp [Transfer.UnmarkDownloading, hdir],
    by simp [Transfer.MarkUploading, hdir], by simp [Transfer.UnmarkUploading, hdir],
    fun hf ht => ?_⟩
  simp [Remove, hf, ht, Transfer.UnmarkDownloading, Transfer.UnmarkUploading, hdir]

/-- Witness for C10 on the registered pending transfer. -/
theorem c10_empty_dir_noop_witness :
    pendingT.MarkDownloading listOps ["x"] = .ok ["x"] ∧
    pendingT.UnmarkDownloading listOps ["x"] = .ok ["x"] ∧
    pendingT.MarkUploading listOps ["x"] = .ok ["x"] ∧
    pendingT.UnmarkUploading listOps ["x"] = .ok ["x"] ∧
    Remove listOps pendingState "p1" =
      .ok { transfers := removeT pendingState.transfers "p1", fs := pendingState.fs,
            cancelInvoked := pendingT.hasCancel,
            torrentDropped := false } := by
  obtain ⟨h1, h2, h3, h4, h5⟩ :=
    c10_empty_dir_noop listOps ["x"] pendingT pendingState "p1" (by decide)
  exact ⟨h1, h2, h3, h4, h5 (by decide) (by decide)⟩

/-! ## C1: Remove -/

theorem fsMem_iff (fs : List String) (p : String) : fsMem fs p = true ↔ p ∈ fs := by
  simp [fsMem, List.any_eq_true]

theorem unmarkD_listOps (fs : List String) (t : Transfer) :
    t.UnmarkDownloading listOps fs =
      .ok (if t.downloadDir = "" then fs
           else fs.filter (fun q => !(decide (q = t.downloadingFile)))) := by
  by_cases hd : t.downloadDir = ""
  · simp [Transfer.UnmarkDownloading, hd]
  · have hne : ¬ (t.downloadingFile = "") :=
      string_append_ne_empty t.downloadDir ".downloading" (by decide)
    by_cases hm : fsMem fs t.downloadingFile = true
    · simp [Transfer.UnmarkDownloading, hd, listOps, hne, hm]
    · have hall : ∀ q ∈ fs, ¬ q = t.downloadingFile := by
        intro q hq hqe
        exact hm ((fsMem_iff fs t.downloadingFile).mpr (hqe ▸ hq))
      simp [Transfer.UnmarkDownloading, hd, listOps, hne, hm]
      refine (List.filter_eq_self.mpr ?_).symm
      intro q hq
      simpa using hall q hq

theorem unmarkU_listOps (fs : List String) (t : Transfer) :
    t.UnmarkUploading listOps fs =
      .ok (if t.downloadDir = "" then fs
           else fs.filter (fun q => !(decide (q = t.uploadingFile)))) := by
  by_cases hd : t.downloadDir = ""
  · simp [Transfer.UnmarkUploading, hd]
  · have hne : ¬ (t.uploadingFile = "") :=
      string_append_ne_empty t.downloadDir ".uploading" (by decide)
    by_cases hm : fsMem fs t.uploadingFile = true
    · simp [Transfer.UnmarkUploading, hd, listOps, hne, hm]
    · have hall : ∀ q ∈ fs, ¬ q = t.uploadingFile := by
        intro q hq hqe
        exact hm ((fsMem_iff fs t.uploadingFile).mpr (hqe ▸ hq))
      simp [Transfer.UnmarkUploading, hd, listOps, hne, hm]
      refine (List.filter_eq_self.mpr ?_).symm
      intro q hq
      simpa using hall q hq

theorem remove_listOps_ok (s : DState) (id : String) (t : Transfer)
    (hf : findByID s.transfers id = some t) :
    Remove listOps s id =
      .ok { transfers := removeT s.transfers id,
            fs := sentinelScrub t (torrentScrub t s.fs),
            cancelInvoked := t.hasCancel, torrentDropped := t.hasTorrent } := by
  have hrmAll : ∀ (fs : List String) (p : String), listOps.rmAll fs p =
      .ok (fs.filter (fun q =>
        !(decide (q = p) || (p ++ "/").data.isPrefixOf q.data))) :=
    fun _ _ => rfl
  by_cases hd : t.downloadDir = ""
  · have hs0 : listOps.stat s.fs "" = false := by
      simp [listOps]
    by_cases ht : t.hasTorrent = true <;> by_cases hu : t.uploading = true <;>
      simp [Remove, hf, ht, hu, hs0, hd, torrentScrub, sentinelScrub,
        unmarkD_listOps, unmarkU_listOps]
  · by_cases ht : t.hasTorrent = true <;> by_cases hu : t.uploading = true <;>
      by_cases hs : listOps.stat s.fs t.downloadDir = true <;>
      simp [Remove, hf, ht, hu, hs, hd, torrentScrub, sentinelScrub,
        unmarkD_listOps, unmarkU_listOps, hrmAll, List.filter_filter, Bool.and_assoc]

theorem sentinelScrub_subset (t : Transfer) (fs : List String) (p : String)
    (h : p ∈ sentinelScrub t fs) : p ∈ fs := by
  unfold sentinelScrub at h
  split at h
  · exact h
  · exact (List.mem_filter.mp (List.mem_filter.mp h).1).1

/-- C1 counterexample: a registered friend transfer that is not uploading
and whose partial download directory exists.  Remove succeeds, invokes the
cancel handle and clears the sentinel, but the download directory and its
contents survive, because the source only deletes the directory inside the
branch that handles a torrent handle.  This refutes the claim that Remove
deletes the download directory of every non-uploading transfer. -/
theorem c1_remove_counterexample :
    friendT.uploading = false ∧
    friendT.downloadDir ∈ friendState.fs ∧
    Remove listOps friendState "t1" =
      .ok { transfers := [], fs := ["/data/movieA", "/data/movieA/a.mp4"],
            cancelInvoked := true, torrentDropped := false } ∧
    friendT.downloadDir ∈ ["/data/movieA", "/data/movieA/a.mp4"] := by decide

/-- C1 amended: Remove fails with NotFound for an unknown id; for a
registered transfer it invokes the cancel handle iff set, drops the record,
and unmarks both sentinels; the download directory is recursively deleted
only when the transfer holds a torrent handle, is not uploading and the
directory exists, while for transfers without a torrent handle (friend
pulls) every non-sentinel path, the download directory included,
survives. -/
theorem c1_remove_amended (s : DState) (id : String) :
    (findByID s.transfers id = none → Remove listOps s id = .error .notFound) ∧
    (∀ t, findByID s.transfers id = some t →
      ∃ out, Remove listOps s id = .ok out ∧
        out.cancelInvoked = t.hasCancel ∧
        out.torrentDropped = t.hasTorrent ∧
        out.transfers = removeT s.transfers id ∧
        (t.hasTorrent = true → t.uploading = false → t.downloadDir ≠ "" →
          t.downloadDir ∈ s.fs →
          ∀ p, (p = t.downloadDir ∨
              (t.downloadDir ++ "/").data.isPrefixOf p.data = true) →
            p ∉ out.fs) ∧
        (t.hasTorrent = false →
          ∀ p, p ∈ s.fs → p ≠ t.downloadingFile → p ≠ t.uploadingFile → p ∈ out.fs) ∧
        (t.hasTorrent = false → t.downloadDir ∈ s.fs → t.downloadDir ∈ out.fs) ∧
        (t.downloadDir ≠ "" →
          t.downloadingFile ∉ out.fs ∧ t.uploadingFile ∉ out.fs)) := by
  constructor
  · intro hn
    simp [Remove, hn]
  · intro t hf
    refine ⟨_, remove_listOps_ok s id t hf, rfl, rfl, rfl, ?_, ?_, ?_, ?_⟩
    · intro ht hu hd hmem p hp hpin
      have hpX := sentinelScrub_subset t (torrentScrub t s.fs) p hpin
      have hstat : listOps.stat s.fs t.downloadDir = true := by
        simp [listOps, hd]
        exact (fsMem_iff s.fs t.downloadDir).mpr hmem
      rw [torrentScrub, if_pos ht, if_pos (by simp [hu]), if_pos hstat] at hpX
      have hpred := (List.mem_filter.mp hpX).2
      rcases hp with hp | hp
      · simp [hp] at hpred
      · have hp2 : (t.downloadDir.data ++ ['/']).isPrefixOf p.data = true := hp
        simp [hp2] at hpred
    · intro ht p hin hpd hpu
      have hX : torrentScrub t s.fs = s.fs := by
        simp [torrentScrub, ht]
      show p ∈ sentinelScrub t (torrentScrub t s.fs)
      rw [hX]
      unfold sentinelScrub
      split
      · exact hin
      · exact List.mem_filter.mpr ⟨List.mem_filter.mpr ⟨hin, by simpa using hpd⟩,
          by simpa using hpu⟩
    · intro ht hmem
      have hX : torrentScrub t s.fs = s.fs := by
        simp [torrentScrub, ht]
      show t.downloadDir ∈ sentinelScrub t (torrentScrub t s.fs)
      rw [hX]
      unfold sentinelScrub
      split
      · exact hmem
      · refine List.mem_filter.mpr ⟨List.mem_filter.mpr ⟨hmem, ?_⟩, ?_⟩
        · simpa using self_ne_string_append t.downloadDir ".downloading" (by decide)
        · simpa using self_ne_string_append t.downloadDir ".uploading" (by decide)
    · intro hd
      constructor
      · intro hin
        have hin2 := hin
        unfold sentinelScrub at hin2
        rw [if_neg hd] at hin2
        have := (List.mem_filter.mp (List.mem_filter.mp hin2).1).2
        simp at this
      · intro hin
        have hin2 := hin
        unfold sentinelScrub at hin2
        rw [if_neg hd] at hin2
        have := (List.mem_filter.mp hin2).2
        simp at this

/-- Witness for C1 on the registered torrent transfer: the file inside the
download directory is gone after Remove. -/
theorem c1_remove_amended_witness :
    ∃ out, Remove listOps torrentState "t2" = .ok out ∧
      "/data/movieB/a.mp4" ∉ out.fs := by
  obtain ⟨out, hok, _, _, _, hdel, _, _, _⟩ :=
    (c1_remove_amended torrentState "t2").2 torrentT (by decide)
  exact ⟨out, hok,
    hdel (by decide) (by decide) (by decide) (by decide) "/data/movieB/a.mp4" (by decide)⟩

/-! ## C2: scheduler admission -/

theorem tick_no_start (slots : Nat) (l : List Transfer) :
    ∀ (cur : List Transfer) (n : Nat) (ids : List String), slots ≤ n →
      (l.foldl (tickStep slots) (cur, n, ids)).2.2 = ids := by
  induction l with
  | nil =>
    intro cur n ids _
    rfl
  | cons t l ih =>
    intro cur n ids h
    simp only [List.foldl_cons]
    unfold tickStep
    by_cases ha : t.IsActive = true
    · simp only [ha, if_true, reduceIte]
      exact ih cur n ids h
    · by_cases hc : t.IsCompleted = true
      · simp only [ha, hc, Bool.false_eq_true, if_false, if_true, reduceIte]
        exact ih _ n ids h
      · have hn : ¬ (n < slots) := by omega
        simp only [ha, hc, hn, Bool.false_eq_true, if_false, reduceIte]
        exact ih cur n ids h

theorem tick_ids_indep (slots : Nat) (l : List Transfer) :
    ∀ (cur cur' : List Transfer) (n : Nat) (ids : List String),
      (l.foldl (tickStep slots) (cur, n, ids)).2 =
        (l.foldl (tickStep slots) (cur', n, ids)).2 := by
  induction l with
  | nil =>
    intros
    rfl
  | cons t l ih =>
    intro cur cur' n ids
    simp only [List.foldl_cons]
    unfold tickStep
    by_cases ha : t.IsActive = true
    · simp only [ha, if_true, reduceIte]
      exact ih cur cur' n ids
    · by_cases hc : t.IsCompleted = true
      · simp only [ha, hc, Bool.false_eq_true, if_false, if_true, reduceIte]
        exact ih _ _ n ids
      · by_cases hn : n < slots
        · simp only [ha, hc, hn, Bool.false_eq_true, if_false, if_true, reduceIte]
          exact ih _ _ _ _
        · simp only [ha, hc, hn, Bool.false_eq_true, if_false, reduceIte]
          exact ih cur cur' n ids

/-- C2: one manager tick starts no transfer when the number of active
non-uploading transfers already equals the slot limit, and an active
uploading transfer is invisible to admission: prepending one to the
registry changes neither the admission count nor the set of transfers the
tick starts. -/
theorem c2_admission_cap (slots : Nat) (ts : List Transfer) (u : Transfer) :
    (activeCount ts = slots → (managerTick slots ts).2.2 = []) ∧
    (u.IsActive = true → u.uploading = true →
      activeCount (u :: ts) = activeCount ts ∧
        (managerTick slots (u :: ts)).2.2 = (managerTick slots ts).2.2) := by
  constructor
  · intro h
    exact tick_no_start slots ts ts (activeCount ts) [] (le_of_eq h.symm)
  · intro ha hu
    have hcount : activeCount (u :: ts) = activeCount ts := by
      simp [activeCount, List.filter_cons, ha, hu]
    refine ⟨hcount, ?_⟩
    unfold managerTick
    rw [hcount]
    simp only [List.foldl_cons]
    have hstep : tickStep slots (u :: ts, activeCount ts, []) u = (u :: ts, activeCount ts, []) := by
      simp [tickStep, ha]
    rw [hstep]
    exact congrArg Prod.snd (tick_ids_indep slots ts (u :: ts) ts (activeCount ts) [])

/-- Witness for C2 with one active transfer and a slot limit of one. -/
theorem c2_admission_cap_witness :
    activeCount [activeT] = 1 ∧ uploadingT.IsActive = true ∧ uploadingT.uploading = true ∧
      (managerTick 1 [activeT]).2.2 = [] ∧
      (managerTick 1 (uploadingT :: [activeT])).2.2 = (managerTick 1 [activeT]).2.2 :=
  ⟨by decide, by decide, by decide,
    (c2_admission_cap 1 [activeT] uploadingT).1 (by decide),
    ((c2_admission_cap 1 [activeT] uploadingT).2 (by decide) (by decide)).2⟩

/-! ## C3: Add is idempotent -/

/-- C3: when the target parses to canonical form c, and the registry is
well formed (records for c carry the digest id, and there is at most one),
two successive Add calls return the same transfer, whose id is the digest
of the canonical URL, the second call changes nothing, and the registry
ends with exactly one record for c; Add fails exactly on parse errors. -/
theorem c3_add_idempotent (canon : String → Option String) (digest : String → String)
    (ratio : Rat) (ts : List Transfer) (raw c : String)
    (hc : canon raw = some c)
    (hid : ∀ t ∈ ts, t.url = c → t.id = digest c)
    (hcount : countURL ts c ≤ 1) :
    ∃ t1 ts1 t2 ts2,
      addTransfer canon digest ratio ts raw = some (t1, ts1) ∧
      addTransfer canon digest ratio ts1 raw = some (t2, ts2) ∧
      t1.id = digest c ∧ t2 = t1 ∧ ts2 = ts1 ∧ countURL ts1 c = 1 ∧
      (∀ raw2, addTransfer canon digest ratio ts raw2 = none ↔ canon raw2 = none) := by
  have hfail : ∀ raw2, addTransfer canon digest ratio ts raw2 = none ↔ canon raw2 = none := by
    intro raw2
    cases hc2 : canon raw2 with
    | none => simp [addTransfer, hc2]
    | some c2 =>
      cases hf2 : ts.find? (fun t => decide (c2 = t.url)) with
      | none => simp [addTransfer, hc2, hf2]
      | some t0 => simp [addTransfer, hc2, hf2]
  cases hfind : ts.find? (fun t => decide (c = t.url)) with
  | some t0 =>
    have ht0mem := List.mem_of_find?_eq_some hfind
    have ht0url : t0.url = c := by
      have h' : c = t0.url := by simpa using List.find?_some hfind
      exact h'.symm
    have hone : countURL ts c = 1 := by
      have hmemf : t0 ∈ ts.filter (fun t => decide (t.url = c)) :=
        List.mem_filter.mpr ⟨ht0mem, by simpa using ht0url⟩
      have hpos : 0 < countURL ts c :=
        List.length_pos.mpr (List.ne_nil_of_mem hmemf)
      omega
    refine ⟨t0, ts, t0, ts, ?_, ?_, hid t0 ht0mem ht0url, rfl, rfl, hone, hfail⟩
    · simp [addTransfer, hc, hfind]
    · simp [addTransfer, hc, hfind]
  | none =>
    have hzero : countURL ts c = 0 := by
      unfold countURL
      rw [List.length_eq_zero, List.filter_eq_nil_iff]
      intro t ht
      have h2 := List.find?_eq_none.mp hfind t ht
      simp at h2 ⊢
      exact fun hh => h2 hh.symm
    let fr : Transfer :=
      { id := digest c, url := c, started := false, completed := false,
        hasCancel := false, downloadDir := "", uploading := false,
        seedRatio := ratio, hasTorrent := false }
    have h1 : addTransfer canon digest ratio ts raw = some (fr, ts ++ [fr]) := by
      simp only [addTransfer, hc, hfind]
    have hfr : (fun t : Transfer => decide (c = t.url)) fr = true := by simp
    have h2 : addTransfer canon digest ratio (ts ++ [fr]) raw = some (fr, ts ++ [fr]) := by
      have hfr1 : List.find? (fun t : Transfer => decide (c = t.url)) [fr] = some fr :=
        List.find?_cons_of_pos [] hfr
      simp only [addTransfer, hc, List.find?_append, hfind, Option.none_or, hfr1]
    have h5 : countURL (ts ++ [fr]) c = 1 := by
      unfold countURL at hzero ⊢
      rw [List.filter_append, List.length_append, hzero]
      simp
    exact ⟨fr, ts ++ [fr], fr, ts ++ [fr], h1, h2, rfl, rfl, rfl, h5, hfail⟩

/-- Witness for C3 on an empty registry with identity canonicalization and
digest. -/
theorem c3_add_idempotent_witness :
    (fun r => some r) "u" = some "u" ∧
      (∀ t ∈ ([] : List Transfer), t.url = "u" → t.id = (fun r => r) "u") ∧
      countURL [] "u" ≤ 1 ∧
      (∃ t1 ts1 t2 ts2,
        addTransfer (fun r => some r) (fun r => r) 0 [] "u" = some (t1, ts1) ∧
        addTransfer (fun r => some r) (fun r => r) 0 ts1 "u" = some (t2, ts2) ∧
        t1.id = (fun r => r) "u" ∧ t2 = t1 ∧ ts2 = ts1 ∧ countURL ts1 "u" = 1 ∧
        (∀ raw2, addTransfer (fun r => some r) (fun r => r) 0 [] raw2 = none ↔
          (fun r => some r) raw2 = none)) :=
  ⟨rfl, by simp, by decide,
    c3_add_idempotent (fun r => some r) (fun r => r) 0 [] "u" "u" rfl (by simp) (by decide)⟩

/-! ## C6: library listing order -/

theorem listDownloadsAux_sublist (root : String) (fs : List String) :
    ∀ (ds : List DirEntry) (out : List String), listDownloadsAux root fs ds = some out →
      out.Sublist (ds.map (fun d => d.name)) := by
  intro ds
  induction ds with
  | nil =>
    intro out h
    simp only [listDownloadsAux] at h
    cases h
    simp
  | cons d ds ih =>
    intro out h
    simp only [listDownloadsAux] at h
    cases hp : downloadPath root d.name with
    | none =>
      rw [hp] at h
      simp at h
    | some p =>
      rw [hp] at h
      cases hr : listDownloadsAux root fs ds with
      | none =>
        rw [hr] at h
        simp at h
      | some rest =>
        rw [hr] at h
        have hout : (if fsMem fs (p ++ ".downloading") then rest else d.name :: rest) = out :=
          Option.some.inj h
        by_cases hb : fsMem fs (p ++ ".downloading") = true
        · rw [if_pos hb] at hout
          subst hout
          exact (ih rest hr).cons d.name
        · rw [if_neg hb] at hout
          subst hout
          exact (ih rest hr).cons₂ d.name

theorem listDownloadsAux_mem (root : String) (fs : List String) :
    ∀ (ds : List DirEntry) (out : List String), listDownloadsAux root fs ds = some out →
      ∀ x, x ∈ out ↔ ∃ d ∈ ds, d.name = x ∧
        ∃ p, downloadPath root x = some p ∧ fsMem fs (p ++ ".downloading") = false := by
  intro ds
  induction ds with
  | nil =>
    intro out h x
    simp only [listDownloadsAux] at h
    cases h
    simp
  | cons d ds ih =>
    intro out h x
    simp only [listDownloadsAux] at h
    cases hp : downloadPath root d.name with
    | none =>
      rw [hp] at h
      simp at h
    | some p =>
      rw [hp] at h
      cases hr : listDownloadsAux root fs ds with
      | none =>
        rw [hr] at h
        simp at h
      | some rest =>
        rw [hr] at h
        have hout : (if fsMem fs (p ++ ".downloading") then rest else d.name :: rest) = out :=
          Option.some.inj h
        by_cases hb : fsMem fs (p ++ ".downloading") = true
        · rw [if_pos hb] at hout
          subst hout
          rw [ih rest hr x]
          constructor
          · rintro ⟨e, he, hen, hpath⟩
            exact ⟨e, List.mem_cons_of_mem _ he, hen, hpath⟩
          · rintro ⟨e, he, hen, q, hq, hqb⟩
            rcases List.mem_cons.mp he with rfl | he
            · subst hen
              rw [hp] at hq
              cases hq
              rw [hb] at hqb
              cases hqb
            · exact ⟨e, he, hen, q, hq, hqb⟩
        · rw [if_neg hb] at hout
          subst hout
          constructor
          · intro hx
            rcases List.mem_cons.mp hx with rfl | hx
            · exact ⟨d, List.mem_cons_self _ _, rfl, p, hp, by simpa using hb⟩
            · obtain ⟨e, he, hen, hpath⟩ := (ih rest hr x).mp hx
              exact ⟨e, List.mem_cons_of_mem _ he, hen, hpath⟩
          · rintro ⟨e, he, hen, q, hq, hqb⟩
            rcases List.mem_cons.mp he with rfl | he
            · subst hen
              exact List.mem_cons_self _ _
            · exact List.mem_cons_of_mem _ ((ih rest hr x).mpr ⟨e, he, hen, q, hq, hqb⟩)

theorem ls_dirs_mem (es : List DirEntry) (d : DirEntry) :
    d ∈ (ls es).1 ↔ d ∈ es ∧ strEndsWith d.name "thumbnail.png" = false ∧
      startsWithDot d.name = false ∧ d.isDir = true := by
  unfold ls
  rw [(List.perm_insertionSort entLe _).mem_iff]
  simp only [List.mem_filter, Bool.and_eq_true, Bool.not_eq_true']
  tauto

/-- C6 counterexample: with two directories a and b and no sentinels, the
listing returns a before b, which is ascending, not descending, order. -/
theorem c6_listing_counterexample :
    ListDownloads "/data" [] [⟨"a", true⟩, ⟨"b", true⟩] = some ["a", "b"] ∧
      descendingByName ["a", "b"] = false := by decide

/-- C6 amended: the library listing returns exactly the surviving directory
entries (thumbnail names, hidden names and entries with a downloading
sentinel removed) ordered by name in ascending order. -/
theorem c6_listing_amended (root : String) (fs : List String) (es : List DirEntry)
    (out : List String) (h : ListDownloads root fs es = some out) :
    List.Pairwise (fun a b : String => a.data ≤ b.data) out ∧
    (∀ x, x ∈ out ↔ ∃ e ∈ es, e.name = x ∧ e.isDir = true ∧
      strEndsWith x "thumbnail.png" = false ∧ startsWithDot x = false ∧
      ∃ p, downloadPath root x = some p ∧ fsMem fs (p ++ ".downloading") = false) := by
  constructor
  · have hsorted : List.Pairwise entLe (ls es).1 :=
      List.sorted_insertionSort entLe _
    have hmap : List.Pairwise (fun a b : String => a.data ≤ b.data)
        ((ls es).1.map (fun d => d.name)) :=
      List.pairwise_map.mpr hsorted
    exact List.Pairwise.sublist (listDownloadsAux_sublist root fs (ls es).1 out h) hmap
  · intro x
    rw [listDownloadsAux_mem root fs (ls es).1 out h x]
    constructor
    · rintro ⟨d, hd, hdn, hpath⟩
      obtain ⟨hes, hth, hdot, hdir⟩ := (ls_dirs_mem es d).mp hd
      subst hdn
      exact ⟨d, hes, rfl, hdir, hth, hdot, hpath⟩
    · rintro ⟨e, he, hen, hdir, hth, hdot, hpath⟩
      subst hen
      exact ⟨e, (ls_dirs_mem es e).mpr ⟨he, hth, hdot, hdir⟩, rfl, hpath⟩

/-- Witness for C6 on a one-directory root. -/
theorem c6_listing_amended_witness :
    List.Pairwise (fun a b : String => a.data ≤ b.data) ["m"] ∧
    (∀ x, x ∈ ["m"] ↔ ∃ e ∈ ([⟨"m", true⟩] : List DirEntry), e.name = x ∧ e.isDir = true ∧
      strEndsWith x "thumbnail.png" = false ∧ startsWithDot x = false ∧
      ∃ p, downloadPath "/data" x = some p ∧ fsMem [] (p ++ ".downloading") = false) :=
  c6_listing_amended "/data" [] [⟨"m", true⟩] ["m"] (by decide)

end Viewscreen
